import Mathlib

/-!
Verification of the lookoutmobile-scanner repository (Go).

This file shallowly embeds the parts of the source that the verified claims
are about:

* `internal/device/repository.go` — the `Device` record, the buntdb-backed
  `Store` (modelled as an association list ordered by key, as buntdb's btree
  keeps it), `Save`, `Get`, `Update`, and the full-scan operations `List`,
  `GetByPlatform`, `GetActiveDevices`.
* `internal/device/service.go` (src/unnamed/part_001) — `validateDevice`,
  `CreateDevice`, `isVulnerable`.
* `internal/analyzer/analyzer.go` — `analyzeAndroidRisk`, `analyzeIOSRisk`,
  `analyzeAndroidVersionDistribution`, `analyzeIOSVersionDistribution`, and
  the per-device loop of `AnalyzeDevices`.
* `internal/api/client.go` — the retry loop of `doRequest` and the argument
  validation of `GetVulnerabilities`.
* `cmd` main (src/unnamed/part_002) — the pagination loop of
  `processDevices`.

Modelling conventions: wall-clock instants are day counts (`Nat`), threaded
explicitly where Go calls `time.Now()`/`time.Since`; Go strings are Lean
`String`s (the version / guid strings involved are ASCII, so Go's byte
indexing and byte-wise lexicographic comparison coincide with Lean's
character operations); `json.Marshal`/`json.Unmarshal` of a `Device` are
modelled by an injective constructor `Val.dev` with a second constructor
`Val.raw` for stored bytes that do not unmarshal as a `Device`; fallible Go
functions return `Option`/`Except` or a value paired with an optional error.
Floating-point aggregates that no claim mentions (distribution percentages,
update-pattern frequencies) are omitted from the embedded records.
-/

/-- Risk levels, from `analyzer.go` (`RiskHigh`, `RiskMedium`, `RiskLow`). -/
inductive RiskLevel where
  | high
  | medium
  | low
deriving Repr, DecidableEq

/-- Device software fields, from `repository.go` (`Software`). -/
structure Software where
  securityPatchLevel : String
  osVersion : String
deriving Repr, DecidableEq

/-- Device record, from `repository.go` (`Device`).  `lastUpdated` is a day
count standing for the Go `time.Time`; `childCount` is `Int` because the Go
`int` field is decremented as well as incremented. -/
structure Device where
  guid : String
  oid : String
  parentDeviceGuid : String
  activationStatus : String
  platform : String
  software : Software
  childCount : Int
  lastUpdated : Nat
deriving Repr, DecidableEq

/-- Leap-year test of the proleptic Gregorian calendar, as Go's date
validation uses it. -/
def isLeapYear (y : Nat) : Bool :=
  (y % 4 == 0 && y % 100 != 0) || y % 400 == 0

/-- Length of month `m` (1-based) in year `y`. -/
def daysInMonth (y m : Nat) : Nat :=
  if m == 2 then (if isLeapYear y then 29 else 28)
  else if m == 4 || m == 6 || m == 9 || m == 11 then 30
  else 31

/-- Days in the months of year `y` strictly before month `m` (1-based). -/
def daysBeforeMonth (y m : Nat) : Nat :=
  (List.range (m - 1)).foldl (fun acc i => acc + daysInMonth y (i + 1)) 0

/-- Day count of the civil date `y-m-d` (days since 0001-01-01), used to give
meaning to differences between parsed `time.Time` values. -/
def toDays (y m d : Nat) : Nat :=
  365 * (y - 1) + ((y - 1) / 4 - (y - 1) / 100 + (y - 1) / 400)
    + daysBeforeMonth y m + (d - 1)

def isDigitChar (c : Char) : Bool :=
  '0' ≤ c && c ≤ '9'

def digitVal (c : Char) : Nat :=
  c.toNat - '0'.toNat

/-- Go `time.Parse("2006-01-02", s)`: exactly `YYYY-MM-DD` with two-digit
month and day, month in 1..12 and day within the month's length, yielding
the date's day count; `none` is Go's parse error. -/
def parseDate (s : String) : Option Nat :=
  match s.data with
  | [y1, y2, y3, y4, '-', m1, m2, '-', d1, d2] =>
    if isDigitChar y1 && isDigitChar y2 && isDigitChar y3 && isDigitChar y4
        && isDigitChar m1 && isDigitChar m2 && isDigitChar d1 && isDigitChar d2 then
      let y := 1000 * digitVal y1 + 100 * digitVal y2 + 10 * digitVal y3 + digitVal y4
      let m := 10 * digitVal m1 + digitVal m2
      let d := 10 * digitVal d1 + digitVal d2
      if 1 ≤ m && m ≤ 12 && 1 ≤ d && d ≤ daysInMonth y m then
        some (toDays y m d)
      else
        none
    else
      none
  | _ => none

/-- Digit-string value; `none` when empty or containing a non-digit. -/
def digitsToNat : List Char → Option Nat
  | [] => none
  | cs =>
    if cs.all isDigitChar then
      some (cs.foldl (fun acc c => 10 * acc + digitVal c) 0)
    else
      none

/-- Largest value Go's `strconv.Atoi` accepts on a 64-bit platform. -/
def goMaxInt : Nat := 9223372036854775807

/-- Go `strconv.Atoi`: optional sign, at least one digit, 64-bit range check;
`none` is Go's error return. -/
def atoi (s : String) : Option Int :=
  match s.data with
  | '+' :: cs =>
    match digitsToNat cs with
    | some n => if n ≤ goMaxInt then some (Int.ofNat n) else none
    | none => none
  | '-' :: cs =>
    match digitsToNat cs with
    | some n => if n ≤ goMaxInt + 1 then some (-(Int.ofNat n)) else none
    | none => none
  | cs =>
    match digitsToNat cs with
    | some n => if n ≤ goMaxInt then some (Int.ofNat n) else none
    | none => none

/-- Whole truncated 30-day months between two day counts, Go's
`int(time.Since(patchDate).Hours() / 24 / 30)` evaluated at clock `now`
(`Int.div` truncates toward zero exactly as Go's `int` conversion does; the
float division is exact at these magnitudes). -/
def monthsSince (now patch : Nat) : Int :=
  Int.tdiv ((now : Int) - (patch : Int)) 30

/-- Embedding of `analyzeAndroidRisk` (analyzer.go:159-175) with the wall
clock made explicit. -/
def analyzeAndroidRisk (now : Nat) (patchLevel : String) : RiskLevel :=
  match parseDate patchLevel with
  | none => .high
  | some patchDate =>
    let monthsOld := monthsSince now patchDate
    if 12 ≤ monthsOld then .high
    else if 6 ≤ monthsOld then .medium
    else .low

/-- Lexicographic strict comparison of character lists; on ASCII data this is
exactly Go's byte-wise string `<`. -/
def charsLt : List Char → List Char → Bool
  | [], [] => false
  | [], _ :: _ => true
  | _ :: _, [] => false
  | a :: as, b :: bs =>
    if a.toNat < b.toNat then true
    else if b.toNat < a.toNat then false
    else charsLt as bs

/-- Go string `<` (byte-wise lexicographic). -/
def goLt (a b : String) : Bool :=
  charsLt a.data b.data

/-- Go string `<=` (byte-wise lexicographic). -/
def goLe (a b : String) : Bool :=
  !(goLt b a)

/-- First component of `strings.Split(v, ".")`: the prefix of `v` before the
first `.` (the whole string when `v` has no `.`). -/
def goMajor (v : String) : String :=
  ⟨v.data.takeWhile (fun c => c ≠ '.')⟩

/-- Embedding of `analyzeIOSRisk` (analyzer.go:177-196). -/
def analyzeIOSRisk (version : String) : RiskLevel :=
  if version = "" then .high
  else
    let majorVersion := goMajor version
    match atoi majorVersion with
    | none => .high
    | some versionNum =>
      if versionNum ≤ 15 then .high
      else if versionNum ≤ 17 then .medium
      else .low

theorem charToNat_inj : ∀ {a b : Char}, a.toNat = b.toNat → a = b :=
  fun h => StrictMono.injective (f := Char.toNat) (fun _ _ a => a) h

theorem charsLt_cons (x y : Char) (xs ys : List Char) :
    charsLt (x :: xs) (y :: ys) = true ↔
      x.toNat < y.toNat ∨ (x.toNat = y.toNat ∧ charsLt xs ys = true) := by
  simp only [charsLt]
  rcases Nat.lt_trichotomy x.toNat y.toNat with h | h | h
  · simp [h]
  · simp [h, Nat.lt_irrefl]
  · simp [h, Nat.lt_asymm h, (Nat.ne_of_lt h).symm]

theorem charsLt_irrefl : ∀ l : List Char, charsLt l l = false
  | [] => rfl
  | a :: as => by
    simp [charsLt, charsLt_irrefl as]

theorem charsLt_asymm : ∀ {a b : List Char}, charsLt a b = true → charsLt b a = false
  | [], [], h => by simp [charsLt] at h
  | [], _ :: _, _ => rfl
  | _ :: _, [], h => by simp [charsLt] at h
  | x :: xs, y :: ys, h => by
    rw [charsLt_cons] at h
    rw [Bool.eq_false_iff]
    intro hc
    rw [charsLt_cons] at hc
    rcases h with h | ⟨he, hr⟩ <;> rcases hc with hc | ⟨hce, hcr⟩
    · omega
    · omega
    · omega
    · simp [charsLt_asymm hr] at hcr

theorem charsLt_trans : ∀ {a b c : List Char},
    charsLt a b = true → charsLt b c = true → charsLt a c = true
  | [], _, _ :: _, _, _ => rfl
  | [], [], [], h1, _ => by simp [charsLt] at h1
  | [], _ :: _, [], _, h2 => by simp [charsLt] at h2
  | _ :: _, [], _, h1, _ => by simp [charsLt] at h1
  | _ :: _, _ :: _, [], _, h2 => by simp [charsLt] at h2
  | x :: xs, y :: ys, z :: zs, h1, h2 => by
    rw [charsLt_cons] at h1 h2 ⊢
    rcases h1 with h1 | ⟨h1e, h1r⟩ <;> rcases h2 with h2 | ⟨h2e, h2r⟩
    · exact Or.inl (by omega)
    · exact Or.inl (by omega)
    · exact Or.inl (by omega)
    · exact Or.inr ⟨by omega, charsLt_trans h1r h2r⟩

theorem charsLt_conn : ∀ {a b : List Char},
    charsLt a b = false → charsLt b a = false → a = b
  | [], [], _, _ => rfl
  | [], _ :: _, h1, _ => by simp [charsLt] at h1
  | _ :: _, [], _, h2 => by simp [charsLt] at h2
  | x :: xs, y :: ys, h1, h2 => by
    rw [Bool.eq_false_iff] at h1 h2
    have hx : ¬ x.toNat < y.toNat := fun h => h1 ((charsLt_cons x y xs ys).mpr (Or.inl h))
    have hy : ¬ y.toNat < x.toNat := fun h => h2 ((charsLt_cons y x ys xs).mpr (Or.inl h))
    have he : x.toNat = y.toNat := by omega
    have hr1 : charsLt xs ys = false := by
      rw [Bool.eq_false_iff]
      exact fun hr => h1 ((charsLt_cons x y xs ys).mpr (Or.inr ⟨he, hr⟩))
    have hr2 : charsLt ys xs = false := by
      rw [Bool.eq_false_iff]
      exact fun hr => h2 ((charsLt_cons y x ys xs).mpr (Or.inr ⟨he.symm, hr⟩))
    rw [charToNat_inj he, charsLt_conn hr1 hr2]

/-- Embedding of the service-layer `isVulnerable` (src/unnamed/part_001:
236-261) with the wall clock explicit.  The iOS branch is Go's
`len(version) > 2 && version[0:2] < "15"` on bytes, modelled on the ASCII
character list. -/
def isVulnerable (now : Nat) (device : Device) : Bool :=
  if device.platform = "ANDROID" then
    if device.software.securityPatchLevel = "" then true
    else
      match parseDate device.software.securityPatchLevel with
      | none => true
      | some patchDate => decide (180 < (now : Int) - (patchDate : Int))
  else if device.platform = "IOS" then
    if device.software.osVersion = "" then true
    else
      let version := device.software.osVersion
      if 2 < version.data.length && charsLt (version.data.take 2) ['1', '5'] then true
      else false
  else false

/-- Modelled from the spec: the iOS half of claim C6 as the claim words it —
an iOS device is vulnerable exactly when its `osVersion` is empty or its
major component is lexically less than the string `15`.  Kept separate so it
can be compared with the source-derived `isVulnerable`. -/
def claimIOSVulnerable (version : String) : Bool :=
  version = "" || charsLt (goMajor version).data ['1', '5']

/-- One bucket of a version-distribution histogram (analyzer.go
`VersionDistribution`; the floating-point percentage is omitted, no claim
mentions it). -/
structure VersionDistribution where
  version : String
  count : Nat
  isSupported : Bool
deriving Repr, DecidableEq

/-- Entry built for one Android patch-level bucket
(analyzer.go:292-301). -/
def androidEntry (now : Nat) (vc : String × Nat) : VersionDistribution :=
  { version := vc.1
    count := vc.2
    isSupported :=
      match parseDate vc.1 with
      | none => false
      | some d => decide ((now : Int) - (d : Int) < 180) }

/-- Entry built for one iOS version bucket (analyzer.go:318-328); Go's
`strconv.Atoi` yields 0 alongside its error, so an unparsable major counts
as 0. -/
def iosEntry (vc : String × Nat) : VersionDistribution :=
  { version := vc.1
    count := vc.2
    isSupported := decide (15 ≤ (atoi (goMajor vc.1)).getD 0) }

/-- Android comparator (analyzer.go:304-306): entry `i` sorts before entry
`j` when `Version_i > Version_j`; `androidOrder a b` is the matching
non-strict may-precede relation. -/
def androidOrder (a b : VersionDistribution) : Prop :=
  goLe b.version a.version = true

instance : DecidableRel androidOrder :=
  fun _ _ => instDecidableEqBool _ _

/-- iOS comparator (analyzer.go:331-338): compare the major components as
strings, break ties by the full version string, both descending. -/
def iosLess (a b : VersionDistribution) : Bool :=
  let ma := goMajor a.version
  let mb := goMajor b.version
  if ma ≠ mb then goLt mb ma else goLt b.version a.version

/-- Non-strict may-precede relation of `iosLess`. -/
def iosOrder (a b : VersionDistribution) : Prop :=
  iosLess b a = false

instance : DecidableRel iosOrder :=
  fun _ _ => instDecidableEqBool _ _

/-- Embedding of `analyzeAndroidVersionDistribution` (analyzer.go:285-309):
the input list carries the Go map's bucket contents (distinct version keys,
arbitrary order); sorting with the may-precede relation models
`sort.Slice`, whose output is the unique ordering all of whose adjacent
pairs may precede each other. -/
def analyzeAndroidVersionDistribution (now : Nat) (patches : List (String × Nat)) :
    List VersionDistribution :=
  List.insertionSort androidOrder (patches.map (androidEntry now))

/-- Embedding of `analyzeIOSVersionDistribution` (analyzer.go:311-341). -/
def analyzeIOSVersionDistribution (versions : List (String × Nat)) :
    List VersionDistribution :=
  List.insertionSort iosOrder (versions.map iosEntry)

/-- Modelled from the spec: the order claim C7 asserts for the iOS list —
descending by the major version parsed as an integer, ties broken by the
full version string descending (unparsable majors read as 0, as the code's
`Atoi` error value would). -/
def claimIOSBefore (a b : VersionDistribution) : Bool :=
  let ia := (atoi (goMajor a.version)).getD 0
  let ib := (atoi (goMajor b.version)).getD 0
  if ia ≠ ib then decide (ib < ia) else goLe b.version a.version

/-- Adjacent-pairs check of claim C7's iOS order. -/
def claimSortedIOSB : List VersionDistribution → Bool
  | [] => true
  | [_] => true
  | a :: b :: rest => claimIOSBefore a b && claimSortedIOSB (b :: rest)

/-- Modelled from the spec: claim C7's iOS sortedness, checked between
adjacent entries (sortedness of the whole list implies this). -/
def claimSortedIOS (l : List VersionDistribution) : Prop :=
  claimSortedIOSB l = true

/-- One attempt's outcome of `httpClient.Do` inside `doRequest`: a transport
error or a response carrying a status code and body. -/
inductive Attempt where
  | transportError
  | response (status : Nat) (body : String)

/-- Result of `doRequest` (client.go:41-104): a non-error response, a
transport failure after the retry budget, or an `APIError` carrying the
status code and message body (`rate limit exceeded` for an exhausted 429,
the response body otherwise). -/
inductive ReqResult where
  | ok (status : Nat)
  | transportFailure
  | apiError (status : Nat) (body : String)
deriving Repr, DecidableEq

/-- Retry loop of `doRequest` (client.go:51-103).  `remaining` is
`maxRetries - attempt`, so `remaining = 0` exactly when the Go guard
`attempt == c.maxRetries` fires; `oracle attempt` is what `httpClient.Do`
yields on that attempt.  Returns the result and the number of attempts
issued (the fixed `retryDelay` sleep between attempts has no observable
effect here and is not modelled). -/
def doRequestAux (oracle : Nat → Attempt) (maxRetries : Nat) : Nat → ReqResult × Nat
  | 0 =>
    let attempt := maxRetries
    match oracle attempt with
    | .transportError => (.transportFailure, attempt + 1)
    | .response status body =>
      if status = 429 then (.apiError 429 "rate limit exceeded", attempt + 1)
      else if 400 ≤ status then (.apiError status body, attempt + 1)
      else (.ok status, attempt + 1)
  | r + 1 =>
    let attempt := maxRetries - (r + 1)
    match oracle attempt with
    | .transportError => doRequestAux oracle maxRetries r
    | .response status body =>
      if status = 429 then doRequestAux oracle maxRetries r
      else if 400 ≤ status then (.apiError status body, attempt + 1)
      else (.ok status, attempt + 1)

/-- `doRequest` starts with the full retry budget (`attempt = 0`). -/
def doRequest (oracle : Nat → Attempt) (maxRetries : Nat) : ReqResult × Nat :=
  doRequestAux oracle maxRetries maxRetries

/-- Argument validation of `GetVulnerabilities` (client.go:168-198): either
a `ValidationError` produced before any network activity, or the request
path that would then be fetched through `doRequest`. -/
inductive VulnPlan where
  | validationError (field : String) (value : String) (message : String)
  | request (url : String)
deriving Repr, DecidableEq

def getVulnerabilitiesPlan (platform version : String) : VulnPlan :=
  if version = "" then .validationError "version" version "version is required"
  else if platform = "ANDROID" then
    if !(version.data.contains '-') then
      .validationError "version" version "invalid security patch level format"
    else .request ("/mra/api/v2/os-vulns/android?aspl=" ++ version)
  else if platform = "IOS" then
    .request ("/mra/api/v2/os-vulns/ios?version=" ++ version)
  else .validationError "platform" platform "invalid platform"

/-- Devices the honest paginated server returns for a cursor and limit: the
first `limit` stored oids strictly after the cursor, all of them for the
empty cursor (the device-list endpoint of §6, projected to the only fields
the pagination loop reads — `oid` values, modelled as naturals, with the
empty string cursor modelled as `none`). -/
def pageAfter (devs : List Nat) (cursor : Option Nat) (limit : Nat) : List Nat :=
  (match cursor with
   | none => devs
   | some c => devs.filter (fun o => c < o)).take limit

/-- Order on cursors: the empty cursor precedes every oid. -/
def cursorLt : Option Nat → Option Nat → Prop
  | none, some _ => True
  | some a, some b => a < b
  | _, _ => False

/-- Pagination loop of `processDevices` (src/unnamed/part_002:138-199)
against the honest server `devs`: the state is the cursor (`lastOID`) and
the running `processedCount`; per-device processing always succeeds and is
not modelled.  Returns the cursors the loop's `GetDevices` calls used, in
order, together with the final processed count, or `none` when `fuel`
iterations do not suffice. -/
def syncLoop (devs : List Nat) (total limit : Nat) :
    Nat → Option Nat → Nat → Option (List (Option Nat) × Nat)
  | 0, _, _ => none
  | fuel + 1, cursor, processed =>
    let page := pageAfter devs cursor limit
    if page.length = 0 ∨ total ≤ processed then
      some ([cursor], processed)
    else
      match syncLoop devs total limit fuel (some (page.getD (page.length - 1) 0)) (processed + page.length) with
      | none => none
      | some (reqs, p) => some (cursor :: reqs, p)

/-- Pagination of `processDevices`: the initial 1-item probe request
declares `total = devs.length`, then the main loop starts from the empty
cursor with processed count zero. -/
def processDevicesSync (devs : List Nat) (limit fuel : Nat) :
    Option (List (Option Nat) × Nat) :=
  syncLoop devs devs.length limit fuel none 0

/-- Stored value bytes: `dev d` stands for the JSON encoding of `d`
(marshalling is injective and unmarshalling recovers `d`); `raw s` stands
for stored bytes that do not unmarshal as a `Device`. -/
inductive Val where
  | dev (d : Device)
  | raw (s : String)
deriving Repr, DecidableEq

/-- Go `json.Unmarshal` into a `Device`, on the modelled bytes. -/
def unmarshalDevice : Val → Option Device
  | .dev d => some d
  | .raw _ => none

/-- Snapshot of the buntdb store: entries in ascending key order, as the
btree keeps them and `tx.Ascend` visits them. -/
abbrev Store := List (String × Val)

/-- Go `tx.Set` on the buntdb btree: replace the key's entry in place or
insert it at its ordered position. -/
def setKey : Store → String → Val → Store
  | [], k, v => [(k, v)]
  | (k1, v1) :: rest, k, v =>
    if k = k1 then (k, v) :: rest
    else if goLt k k1 then (k, v) :: (k1, v1) :: rest
    else (k1, v1) :: setKey rest k v

/-- Go `tx.Get`: the stored value, or `none` for `buntdb.ErrNotFound`. -/
def getKey : Store → String → Option Val
  | [], _ => none
  | (k1, v1) :: rest, k => if k = k1 then some v1 else getKey rest k

/-- Embedding of `Store.Save` (repository.go:58-77): stamp `lastUpdated`
with the current clock, marshal, `tx.Set` under the device's guid. -/
def repoSave (now : Nat) (st : Store) (d : Device) : Store :=
  setKey st d.guid (.dev { d with lastUpdated := now })

/-- Embedding of `Store.Get` (repository.go:80-101). -/
def repoGet (st : Store) (guid : String) : Except String Device :=
  match getKey st guid with
  | none => .error ("device not found: " ++ guid)
  | some v =>
    match unmarshalDevice v with
    | some d => .ok d
    | none => .error "unmarshaling device"

/-- Embedding of `Store.Update` (repository.go:128-155): requires the key to
exist, then writes like `Save`. -/
def repoUpdate (now : Nat) (st : Store) (d : Device) : Except String Store :=
  match getKey st d.guid with
  | none => .error ("device not found: " ++ d.guid)
  | some _ => .ok (setKey st d.guid (.dev { d with lastUpdated := now }))

/-- Shared body of the `tx.Ascend` callbacks of `List`, `GetByPlatform` and
`GetActiveDevices` (repository.go:104-125, 177-200, 203-226): walk entries
in key order, stop (`return false`) at the first value that does not
unmarshal, keep the devices passing `keep`. -/
def scanCollect (keep : Device → Bool) : Store → List Device
  | [] => []
  | (_, v) :: rest =>
    match unmarshalDevice v with
    | none => []
    | some d => (if keep d then [d] else []) ++ scanCollect keep rest

/-- Embedding of `Store.List`. -/
def repoList (st : Store) : Except String (List Device) :=
  .ok (scanCollect (fun _ => true) st)

/-- Embedding of `Store.GetByPlatform`. -/
def repoGetByPlatform (st : Store) (platform : String) : Except String (List Device) :=
  .ok (scanCollect (fun d => d.platform == platform) st)

/-- Embedding of `Store.GetActiveDevices`. -/
def repoGetActiveDevices (st : Store) : Except String (List Device) :=
  .ok (scanCollect (fun d => d.activationStatus == "ACTIVATED") st)

/-- Embedding of `validateDevice` (src/unnamed/part_001:214-233); the Go nil
check has no counterpart, records are values here. -/
def validateDevice (d : Device) : Option String :=
  if d.guid = "" then some "device GUID is required"
  else if d.platform ≠ "ANDROID" ∧ d.platform ≠ "IOS" then
    some ("invalid platform: " ++ d.platform)
  else if d.activationStatus ≠ "ACTIVATED" ∧ d.activationStatus ≠ "DEACTIVATED"
      ∧ d.activationStatus ≠ "PENDING" then
    some ("invalid activation status: " ++ d.activationStatus)
  else none

/-- Embedding of `DeviceService.CreateDevice` (src/unnamed/part_001:46-69):
validate, save unconditionally, then opportunistically bump the parent's
child count when the parent record is readable.  Returns the resulting
store and the error the Go method returns, if any. -/
def createDevice (now : Nat) (st : Store) (d : Device) : Store × Option String :=
  match validateDevice d with
  | some e => (st, some ("validating device: " ++ e))
  | none =>
    let st1 := repoSave now st d
    if d.parentDeviceGuid = "" then (st1, none)
    else
      match repoGet st1 d.parentDeviceGuid with
      | .error _ => (st1, none)
      | .ok parent =>
        match repoUpdate now st1 { parent with childCount := parent.childCount + 1 } with
        | .ok st2 => (st2, none)
        | .error e => (st1, some ("device saved but failed to update parent count: " ++ e))

/-- Accumulators of the device loop of `AnalyzeDevices`
(analyzer.go:101-125): the two version-count maps (as association lists in
first-seen order, the bucket contents of the Go maps) and, per platform,
the risk classification and affected-device label appended for each counted
device. -/
structure AnalyzerAcc where
  androidPatches : List (String × Nat)
  iosVersions : List (String × Nat)
  androidAffected : List (RiskLevel × String)
  iosAffected : List (RiskLevel × String)
deriving Repr, DecidableEq

/-- Go `m[k]++` on a count map. -/
def bumpCount : List (String × Nat) → String → List (String × Nat)
  | [], k => [(k, 1)]
  | (k1, c) :: rest, k =>
    if k = k1 then (k1, c + 1) :: rest else (k1, c) :: bumpCount rest k

/-- The affected-device label `fmt.Sprintf("%s (%s)", d.GUID[:8],
d.Platform)` of analyzer.go:105; `none` models the slice-bounds panic Go
raises when the guid is shorter than 8 bytes. -/
def deviceLabel (d : Device) : Option String :=
  if 8 ≤ d.guid.data.length then
    some (⟨d.guid.data.take 8⟩ ++ " (" ++ d.platform ++ ")")
  else none

/-- Device loop of `AnalyzeDevices` (analyzer.go:104-125); `none` propagates
the label panic. -/
def analyzeLoop (now : Nat) (acc : AnalyzerAcc) : List Device → Option AnalyzerAcc
  | [] => some acc
  | d :: rest =>
    match deviceLabel d with
    | none => none
    | some label =>
      let acc1 :=
        if d.platform = "ANDROID" then
          if d.software.securityPatchLevel ≠ "" then
            { acc with
              androidPatches := bumpCount acc.androidPatches d.software.securityPatchLevel
              androidAffected := acc.androidAffected
                ++ [(analyzeAndroidRisk now d.software.securityPatchLevel, label)] }
          else acc
        else if d.platform = "IOS" then
          if d.software.osVersion ≠ "" then
            { acc with
              iosVersions := bumpCount acc.iosVersions d.software.osVersion
              iosAffected := acc.iosAffected
                ++ [(analyzeIOSRisk d.software.osVersion, label)] }
          else acc
        else acc
      analyzeLoop now acc1 rest

/-- Result of `AnalyzeDevices` (analyzer.go `Analysis`), restricted to the
fields the claims touch: per-platform risk classifications with affected
labels (the `SecurityStats` counts are the lengths of these lists) and the
two version distributions.  Update patterns and the timestamp are
omitted. -/
structure Analysis where
  androidAffected : List (RiskLevel × String)
  iosAffected : List (RiskLevel × String)
  androidDistribution : List VersionDistribution
  iosDistribution : List VersionDistribution
deriving Repr, DecidableEq

/-- Embedding of `AnalyzeDevices` (analyzer.go:84-140) on an already-listed
device snapshot; `none` is the `d.GUID[:8]` slice-bounds panic, which
escapes instead of any `Analysis` or error. -/
def analyzeDevices (now : Nat) (devices : List Device) : Option Analysis :=
  match analyzeLoop now ⟨[], [], [], []⟩ devices with
  | none => none
  | some acc =>
    some
      { androidAffected := acc.androidAffected
        iosAffected := acc.iosAffected
        androidDistribution := analyzeAndroidVersionDistribution now acc.androidPatches
        iosDistribution := analyzeIOSVersionDistribution acc.iosVersions }

/-- Attempts `doRequest` keeps retrying: a transport error or a 429
response. -/
def retryableAttempt (a : Attempt) : Prop :=
  a = .transportError ∨ ∃ b, a = .response 429 b

/-- Sample iOS device used in concrete instances. -/
def iosDevice (v : String) : Device :=
  { guid := "abcd1234", oid := "", parentDeviceGuid := "",
    activationStatus := "ACTIVATED", platform := "IOS",
    software := { securityPatchLevel := "", osVersion := v },
    childCount := 0, lastUpdated := 0 }

/-- Sample Android device used in concrete instances. -/
def androidDevice (patch : String) : Device :=
  { guid := "efgh5678", oid := "", parentDeviceGuid := "",
    activationStatus := "ACTIVATED", platform := "ANDROID",
    software := { securityPatchLevel := patch, osVersion := "" },
    childCount := 0, lastUpdated := 0 }

/-- Device whose guid has fewer than 8 bytes, the input on which
`AnalyzeDevices` slices out of range. -/
def shortGuidDevice : Device :=
  { iosDevice "17.0" with guid := "short" }

theorem analyzeLoop_isSome (now : Nat) :
    ∀ (devices : List Device) (acc : AnalyzerAcc),
      (∀ d ∈ devices, 8 ≤ d.guid.data.length) →
      (analyzeLoop now acc devices).isSome = true
  | [], _, _ => rfl
  | d :: rest, acc, h => by
    have hd : 8 ≤ d.guid.data.length := h d (List.mem_cons_self d rest)
    simp only [analyzeLoop, deviceLabel, if_pos hd]
    exact analyzeLoop_isSome now rest _ (fun d2 hd2 => h d2 (List.mem_cons_of_mem d hd2))

/-- C8: the affected-device label slices `d.GUID[:8]`, so `AnalyzeDevices`
panics on any device list containing a guid shorter than 8 bytes — here a
concrete one — and is total when every guid has at least 8 bytes. -/
theorem c8_guid_slice_panic :
    analyzeDevices 0 [shortGuidDevice] = none
    ∧ ∀ (now : Nat) (devices : List Device),
        (∀ d ∈ devices, 8 ≤ d.guid.data.length) →
        (analyzeDevices now devices).isSome = true := by
  constructor
  · decide
  · intro now devices h
    obtain ⟨acc, hacc⟩ := Option.isSome_iff_exists.mp (analyzeLoop_isSome now devices ⟨[], [], [], []⟩ h)
    simp [analyzeDevices, hacc]

/-- Concrete instance of the totality half of `c8_guid_slice_panic`. -/
theorem c8_guid_slice_panic_witness :
    (analyzeDevices 0 [iosDevice "17.0"]).isSome = true :=
  c8_guid_slice_panic.2 0 [iosDevice "17.0"] (by decide)

/-- C10: `GetVulnerabilities` yields a `ValidationError`, with no request
issued, for an empty version, for an "ANDROID" version lacking a `-`, and
for a platform other than "ANDROID"/"IOS". -/
theorem c10_getVulnerabilities_validation (platform version : String) :
    (version = "" →
      getVulnerabilitiesPlan platform version
        = .validationError "version" version "version is required")
    ∧ (version ≠ "" → platform = "ANDROID" → version.data.contains '-' = false →
      getVulnerabilitiesPlan platform version
        = .validationError "version" version "invalid security patch level format")
    ∧ (version ≠ "" → platform ≠ "ANDROID" → platform ≠ "IOS" →
      getVulnerabilitiesPlan platform version
        = .validationError "platform" platform "invalid platform") := by
  refine ⟨fun h => ?_, fun h hp hc => ?_, fun h hp hi => ?_⟩
  · simp [getVulnerabilitiesPlan, h]
  · simp [getVulnerabilitiesPlan, h, hp]
    simp at hc
    exact hc
  · simp [getVulnerabilitiesPlan, h, hp, hi]

/-- Concrete instance of `c10_getVulnerabilities_validation`: an Android
patch level with no `-` fails validation before any request. -/
theorem c10_getVulnerabilities_validation_witness :
    getVulnerabilitiesPlan "ANDROID" "202301"
      = .validationError "version" "202301" "invalid security patch level format" :=
  (c10_getVulnerabilities_validation "ANDROID" "202301").2.1 (by decide) rfl (by decide)

/-- C2: the reference risk thresholds.  Android: a parseable patch whose age
in truncated 30-day months is at least 12 is High, at least 6 Medium,
otherwise Low; empty or unparsable patches are High; the fixed-clock
examples for patch `2023-01-01` come out High / Medium / Low at 13 / 7 / 1
months later.  iOS: a parsed leading major at most 15 is High, at most 17
Medium, otherwise Low; empty or unparsable versions are High; `14.2`,
`16.0`, `18.1` and the empty string come out as claimed. -/
theorem c2_risk_thresholds :
    (∀ now s, parseDate s = none → analyzeAndroidRisk now s = .high)
    ∧ (∀ now s p, parseDate s = some p → 12 ≤ monthsSince now p →
        analyzeAndroidRisk now s = .high)
    ∧ (∀ now s p, parseDate s = some p → 6 ≤ monthsSince now p → monthsSince now p < 12 →
        analyzeAndroidRisk now s = .medium)
    ∧ (∀ now s p, parseDate s = some p → monthsSince now p < 6 →
        analyzeAndroidRisk now s = .low)
    ∧ analyzeAndroidRisk (toDays 2024 2 1) "2023-01-01" = .high
    ∧ analyzeAndroidRisk (toDays 2023 8 1) "2023-01-01" = .medium
    ∧ analyzeAndroidRisk (toDays 2023 2 1) "2023-01-01" = .low
    ∧ (∀ now, analyzeAndroidRisk now "" = .high)
    ∧ (∀ v, atoi (goMajor v) = none → analyzeIOSRisk v = .high)
    ∧ (∀ v n, atoi (goMajor v) = some n → n ≤ 15 → analyzeIOSRisk v = .high)
    ∧ (∀ v n, atoi (goMajor v) = some n → 15 < n → n ≤ 17 → analyzeIOSRisk v = .medium)
    ∧ (∀ v n, atoi (goMajor v) = some n → 17 < n → analyzeIOSRisk v = .low)
    ∧ analyzeIOSRisk "14.2" = .high
    ∧ analyzeIOSRisk "16.0" = .medium
    ∧ analyzeIOSRisk "18.1" = .low
    ∧ analyzeIOSRisk "" = .high := by
  have hvne : ∀ (v : String) (n : Int), atoi (goMajor v) = some n → v ≠ "" := by
    intro v n ha hv
    rw [hv] at ha
    rw [show atoi (goMajor "") = none from rfl] at ha
    exact Option.noConfusion ha
  refine ⟨?_, ?_, ?_, ?_, by decide, by decide, by decide, ?_, ?_, ?_, ?_, ?_,
    by decide, by decide, by decide, by decide⟩
  · intro now s hp
    simp [analyzeAndroidRisk, hp]
  · intro now s p hp h12
    simp [analyzeAndroidRisk, hp, h12]
  · intro now s p hp h6 h12
    simp [analyzeAndroidRisk, hp, h6, Int.not_le.mpr h12]
  · intro now s p hp h6
    have h12 : monthsSince now p < 12 := by omega
    simp [analyzeAndroidRisk, hp, Int.not_le.mpr h6, Int.not_le.mpr h12]
  · intro now
    simp [analyzeAndroidRisk, show parseDate "" = none from rfl]
  · intro v ha
    by_cases hv : v = ""
    · simp [analyzeIOSRisk, hv]
    · simp [analyzeIOSRisk, hv, ha]
  · intro v n ha h15
    simp [analyzeIOSRisk, hvne v n ha, ha, h15]
  · intro v n ha h15 h17
    simp [analyzeIOSRisk, hvne v n ha, ha, Int.not_le.mpr h15, h17]
  · intro v n ha h17
    have h15 : (15 : Int) < n := by omega
    simp [analyzeIOSRisk, hvne v n ha, ha, Int.not_le.mpr h15, Int.not_le.mpr h17]

/-- Concrete instance of `c2_risk_thresholds`: an unparsable patch level is
High risk. -/
theorem c2_risk_thresholds_witness :
    analyzeAndroidRisk 0 "not-a-date" = .high :=
  c2_risk_thresholds.1 0 "not-a-date" rfl

theorem doRequestAux_retryable (f : Nat → Attempt) (m : Nat)
    (hr : ∀ i, i ≤ m → retryableAttempt (f i)) :
    ∀ r, r ≤ m →
      doRequestAux f m r = (.transportFailure, m + 1)
      ∨ doRequestAux f m r = (.apiError 429 "rate limit exceeded", m + 1)
  | 0, _ => by
    rcases hr m (le_refl m) with ht | ⟨b, hb⟩
    · left
      simp [doRequestAux, ht]
    · right
      simp [doRequestAux, hb]
  | r + 1, hr1 => by
    rcases hr (m - (r + 1)) (Nat.sub_le m (r + 1)) with ht | ⟨b, hb⟩
    · simp only [doRequestAux, ht]
      exact doRequestAux_retryable f m hr r (by omega)
    · simp only [doRequestAux, hb, if_pos rfl]
      exact doRequestAux_retryable f m hr r (by omega)

theorem doRequestAux_first_decisive (f : Nat → Attempt) (m k s : Nat) (b : String)
    (hk : k ≤ m) (hs : s ≠ 429)
    (hbefore : ∀ i, i < k → retryableAttempt (f i)) (hfk : f k = .response s b) :
    ∀ r, r ≤ m → m - r ≤ k →
      doRequestAux f m r = ((if 400 ≤ s then ReqResult.apiError s b else .ok s), k + 1)
  | 0, _, hmk => by
    have hkm : k = m := le_antisymm hk (by omega)
    subst hkm
    by_cases h4 : 400 ≤ s <;> simp [doRequestAux, hfk, hs, h4]
  | r + 1, hrm, hmk => by
    by_cases hattempt : m - (r + 1) = k
    · have hf2 : f (m - (r + 1)) = .response s b := by rw [hattempt, hfk]
      by_cases h4 : 400 ≤ s <;>
        · simp only [doRequestAux, hattempt, hfk, hf2]
          simp [hs, h4]
    · have hlt : m - (r + 1) < k := by omega
      rcases hbefore (m - (r + 1)) hlt with ht | ⟨b2, hb2⟩
      · simp only [doRequestAux, ht]
        exact doRequestAux_first_decisive f m k s b hk hs hbefore hfk r (by omega) (by omega)
      · simp only [doRequestAux, hb2, if_pos rfl]
        exact doRequestAux_first_decisive f m k s b hk hs hbefore hfk r (by omega) (by omega)

/-- C1 counterexample: with a retry budget of 3, a server answering 500 on
every attempt makes `doRequest` return an `APIError` after a single attempt
— a 5xx is not retried — while the same budget retries a transport failure
through all 4 attempts. -/
theorem c1_counterexample :
    doRequest (fun _ => .response 500 "err") 3 = (.apiError 500 "err", 1)
    ∧ doRequest (fun _ => .transportError) 3 = (.transportFailure, 4) := by
  constructor <;> decide

/-- C1 amended: a transport failure or a 429 response is retried up to the
configured maximum (`maxRetries + 1` attempts in all); any response with
status at least 400 other than 429 — 5xx included — fails immediately and
non-retryably with an `APIError` carrying the status code and response
body; a sub-400 response after retryable attempts succeeds. -/
theorem c1_retry_policy (f : Nat → Attempt) (m : Nat) :
    ((∀ i, i ≤ m → retryableAttempt (f i)) →
      doRequest f m = (.transportFailure, m + 1)
      ∨ doRequest f m = (.apiError 429 "rate limit exceeded", m + 1))
    ∧ (∀ k s b, k ≤ m → s ≠ 429 → (∀ i, i < k → retryableAttempt (f i)) →
        f k = .response s b → 400 ≤ s →
        doRequest f m = (.apiError s b, k + 1))
    ∧ (∀ k s b, k ≤ m → s ≠ 429 → (∀ i, i < k → retryableAttempt (f i)) →
        f k = .response s b → s < 400 →
        doRequest f m = (.ok s, k + 1)) := by
  refine ⟨fun hr => doRequestAux_retryable f m hr m (le_refl m),
    fun k s b hk hs hb hf h4 => ?_, fun k s b hk hs hb hf h4 => ?_⟩
  · have h := doRequestAux_first_decisive f m k s b hk hs hb hf m (le_refl m) (by omega)
    simpa [doRequest, if_pos h4] using h
  · have h := doRequestAux_first_decisive f m k s b hk hs hb hf m (le_refl m) (by omega)
    simpa [doRequest, if_neg (by omega : ¬ 400 ≤ s)] using h

/-- Concrete instance of `c1_retry_policy`: a 404 fails immediately after
one attempt. -/
theorem c1_retry_policy_witness :
    doRequest (fun _ => .response 404 "missing") 2 = (.apiError 404 "missing", 1) :=
  (c1_retry_policy (fun _ => .response 404 "missing") 2).2.1 0 404 "missing"
    (by omega) (by decide) (fun i hi => absurd hi (Nat.not_lt_zero i)) rfl (by omega)

/-- C6 counterexample: an iOS device with `osVersion = "14"` — whose major
version `14` is lexically below `15`, so the claim calls it vulnerable —
is not flagged by the code, whose guard `len(version) > 2` skips any
version of at most two bytes. -/
theorem c6_counterexample :
    isVulnerable 0 { iosDevice "14" with guid := "g" } = false
    ∧ claimIOSVulnerable "14" = true := by
  constructor <;> decide

/-- C6 amended: the service vulnerability check flags an Android device iff
its patch level is empty, unparsable, or more than 180 days old, and an iOS
device iff its version is empty, or longer than two bytes with its first
two bytes lexically below "15". -/
theorem c6_isVulnerable_characterization (now : Nat) (d : Device) :
    (d.platform = "ANDROID" →
      (isVulnerable now d = true ↔
        d.software.securityPatchLevel = ""
        ∨ parseDate d.software.securityPatchLevel = none
        ∨ ∃ p, parseDate d.software.securityPatchLevel = some p
            ∧ 180 < (now : Int) - (p : Int)))
    ∧ (d.platform = "IOS" →
      (isVulnerable now d = true ↔
        d.software.osVersion = ""
        ∨ (2 < d.software.osVersion.data.length
            ∧ charsLt (d.software.osVersion.data.take 2) ['1', '5'] = true))) := by
  constructor
  · intro hp
    by_cases hempty : d.software.securityPatchLevel = ""
    · simp [isVulnerable, hp, hempty]
    · cases hpd : parseDate d.software.securityPatchLevel with
      | none => simp [isVulnerable, hp, hempty, hpd]
      | some p => simp [isVulnerable, hp, hempty, hpd]
  · intro hp
    have hp2 : d.platform ≠ "ANDROID" := by
      rw [hp]
      decide
    by_cases hempty : d.software.osVersion = ""
    · simp [isVulnerable, hp, hp2, hempty]
    · by_cases hlen : 2 < d.software.osVersion.data.length <;>
        by_cases hcmp : charsLt (d.software.osVersion.data.take 2) ['1', '5'] = true <;>
        simp [isVulnerable, hp, hp2, hempty, hlen, hcmp]

/-- Concrete instance of `c6_isVulnerable_characterization`: an empty
Android patch level is vulnerable. -/
theorem c6_isVulnerable_characterization_witness :
    isVulnerable 0 (androidDevice "") = true :=
  ((c6_isVulnerable_characterization 0 (androidDevice "")).1 rfl).mpr (Or.inl rfl)

theorem scanCollect_stops (keep : Device → Bool) :
    ∀ (pre : Store) (bad : String × Val) (post : Store),
      (∀ e ∈ pre, (unmarshalDevice e.2).isSome = true) →
      unmarshalDevice bad.2 = none →
      scanCollect keep (pre ++ bad :: post)
        = (pre.filterMap (fun e => unmarshalDevice e.2)).filter keep
  | [], bad, post, _, hbad => by
    simp [scanCollect, hbad]
  | e :: rest, bad, post, hpre, hbad => by
    obtain ⟨d, hd⟩ := Option.isSome_iff_exists.mp (hpre e (List.mem_cons_self e rest))
    have ih := scanCollect_stops keep rest bad post
      (fun e2 he2 => hpre e2 (List.mem_cons_of_mem e he2)) hbad
    by_cases hk : keep d = true <;>
      simp [scanCollect, hd, ih, List.filter_cons, hk]

/-- C9: when the ordered scan reaches a record that does not unmarshal as a
`Device`, the full-scan operations `List`, `GetByPlatform` and
`GetActiveDevices` stop there and return the devices collected so far with
no error, silently omitting the malformed record and everything after
it. -/
theorem c9_scan_stops_at_malformed (pre : Store) (bad : String × Val) (post : Store)
    (hpre : ∀ e ∈ pre, (unmarshalDevice e.2).isSome = true)
    (hbad : unmarshalDevice bad.2 = none) :
    repoList (pre ++ bad :: post)
        = .ok (pre.filterMap (fun e => unmarshalDevice e.2))
    ∧ (∀ platform, repoGetByPlatform (pre ++ bad :: post) platform
        = .ok ((pre.filterMap (fun e => unmarshalDevice e.2)).filter
            (fun d => d.platform == platform)))
    ∧ repoGetActiveDevices (pre ++ bad :: post)
        = .ok ((pre.filterMap (fun e => unmarshalDevice e.2)).filter
            (fun d => d.activationStatus == "ACTIVATED")) := by
  refine ⟨?_, fun platform => ?_, ?_⟩
  · rw [repoList, scanCollect_stops _ pre bad post hpre hbad]
    simp
  · rw [repoGetByPlatform, scanCollect_stops _ pre bad post hpre hbad]
  · rw [repoGetActiveDevices, scanCollect_stops _ pre bad post hpre hbad]

/-- Concrete instance of `c9_scan_stops_at_malformed`: a malformed middle
record hides itself and the record after it. -/
theorem c9_scan_stops_at_malformed_witness :
    repoList [("a", .dev (iosDevice "17.0")), ("b", .raw "oops"),
        ("c", .dev (androidDevice "2024-01-01"))]
      = .ok [iosDevice "17.0"] :=
  (c9_scan_stops_at_malformed [("a", .dev (iosDevice "17.0"))] ("b", .raw "oops")
    [("c", .dev (androidDevice "2024-01-01"))] (by decide) rfl).1

theorem stringDataInj {a b : String} (h : a.data = b.data) : a = b := by
  cases a
  cases b
  cases h
  rfl

theorem getKey_setKey_self : ∀ (st : Store) (k : String) (v : Val),
    getKey (setKey st k v) k = some v
  | [], k, v => by simp [setKey, getKey]
  | (k1, v1) :: rest, k, v => by
    by_cases h : k = k1
    · simp [setKey, h, getKey]
    · by_cases hlt : goLt k k1 <;>
        simp [setKey, h, hlt, getKey, getKey_setKey_self rest k v]

theorem getKey_setKey_ne : ∀ (st : Store) (k : String) (v : Val) (k2 : String),
    k2 ≠ k → getKey (setKey st k v) k2 = getKey st k2
  | [], k, v, k2, hne => by simp [setKey, getKey, hne]
  | (k1, v1) :: rest, k, v, k2, hne => by
    by_cases h : k = k1
    · subst h
      simp [setKey, getKey, hne]
    · by_cases hlt : goLt k k1 <;>
        simp [setKey, h, hlt, getKey, hne, getKey_setKey_ne rest k v k2 hne]

theorem mem_setKey : ∀ (st : Store) (k : String) (v : Val) (e : String × Val),
    e ∈ setKey st k v → e = (k, v) ∨ e ∈ st
  | [], k, v, e, he => by
    simp [setKey] at he
    exact Or.inl he
  | (k1, v1) :: rest, k, v, e, he => by
    by_cases h : k = k1
    · simp only [setKey, if_pos h, List.mem_cons] at he
      rcases he with he | he
      · exact Or.inl he
      · exact Or.inr (List.mem_cons_of_mem _ he)
    · by_cases hlt : goLt k k1
      · simp only [setKey, if_neg h, if_pos hlt, List.mem_cons] at he
        rcases he with he | he | he
        · exact Or.inl he
        · exact Or.inr (by simp [he])
        · exact Or.inr (List.mem_cons_of_mem _ he)
      · simp only [setKey, if_neg h, if_neg hlt, List.mem_cons] at he
        rcases he with he | he
        · exact Or.inr (by simp [he])
        · rcases mem_setKey rest k v e he with h2 | h2
          · exact Or.inl h2
          · exact Or.inr (List.mem_cons_of_mem _ h2)

theorem setKey_pairwise : ∀ (st : Store) (k : String) (v : Val),
    st.Pairwise (fun a b => goLt a.1 b.1 = true) →
    (setKey st k v).Pairwise (fun a b => goLt a.1 b.1 = true)
  | [], k, v, _ => by simp [setKey]
  | (k1, v1) :: rest, k, v, hp => by
    rcases List.pairwise_cons.mp hp with ⟨hhead, htail⟩
    by_cases h : k = k1
    · subst h
      simp only [setKey, if_pos rfl]
      exact List.pairwise_cons.mpr ⟨hhead, htail⟩
    · by_cases hlt : goLt k k1
      · simp only [setKey, if_neg h, if_pos hlt]
        refine List.pairwise_cons.mpr ⟨?_, hp⟩
        intro e he
        rcases List.mem_cons.mp he with he | he
        · subst he
          exact hlt
        · exact charsLt_trans hlt (hhead e he)
      · simp only [setKey, if_neg h, if_neg hlt]
        refine List.pairwise_cons.mpr ⟨?_, setKey_pairwise rest k v htail⟩
        intro e he
        rcases mem_setKey rest k v e he with he2 | he2
        · subst he2
          have hne : k.data ≠ k1.data := fun hd => h (stringDataInj hd)
          rcases hk1 : charsLt k1.data k.data with _ | _
          · exact absurd (charsLt_conn hk1 (by simpa [goLt] using hlt)) (Ne.symm hne)
          · exact hk1
        · exact hhead e he2

/-- C4: saving a device and reading its guid back yields the same record
with `lastUpdated` refreshed to the save-call clock (hence at least it); a
second save under the same guid replaces the record in place, and the store
keeps a single entry per key. -/
theorem c4_save_get_roundtrip (st : Store) (d : Device) (now : Nat)
    (_hguid : d.guid ≠ "")
    (hsorted : st.Pairwise (fun a b => goLt a.1 b.1 = true)) :
    repoGet (repoSave now st d) d.guid = .ok { d with lastUpdated := now }
    ∧ now ≤ ({ d with lastUpdated := now } : Device).lastUpdated
    ∧ (∀ d2 now2, d2.guid = d.guid →
        repoGet (repoSave now2 (repoSave now st d) d2) d.guid
          = .ok { d2 with lastUpdated := now2 })
    ∧ ((repoSave now st d).map Prod.fst).Nodup := by
  refine ⟨?_, le_refl now, fun d2 now2 hg => ?_, ?_⟩
  · simp [repoGet, repoSave, getKey_setKey_self, unmarshalDevice]
  · rw [repoSave, repoSave, ← hg, repoGet, hg, ← hg, getKey_setKey_self]
    simp [unmarshalDevice, hg]
  · have hp := setKey_pairwise st d.guid (.dev { d with lastUpdated := now }) hsorted
    have hp2 := List.Pairwise.map (S := fun a b : String => goLt a b = true)
      Prod.fst (fun a b h => h) hp
    exact hp2.imp (fun {a b} hab heq => by
      rw [heq] at hab
      simp [goLt, charsLt_irrefl] at hab)

/-- Concrete instance of `c4_save_get_roundtrip` on the empty store. -/
theorem c4_save_get_roundtrip_witness :
    repoGet (repoSave 5 [] (iosDevice "17.0")) (iosDevice "17.0").guid
      = .ok { iosDevice "17.0" with lastUpdated := 5 } :=
  (c4_save_get_roundtrip [] (iosDevice "17.0") 5 (by decide) (by simp)).1

/-- C5: creating a valid child whose parent is absent succeeds and leaves
the parent absent; a parent created afterwards (with the converted record's
zero child count) is stored with `childCount = 0`; only a child created
while its parent is present increments the parent's persisted
`childCount`. -/
theorem c5_parent_linkage :
    (∀ (st : Store) (now : Nat) (c : Device),
      validateDevice c = none → c.parentDeviceGuid ≠ "" →
      c.guid ≠ c.parentDeviceGuid → getKey st c.parentDeviceGuid = none →
      createDevice now st c = (repoSave now st c, none)
      ∧ getKey (repoSave now st c) c.parentDeviceGuid = none)
    ∧ (∀ (st : Store) (now2 : Nat) (p : Device),
      validateDevice p = none → p.parentDeviceGuid = "" → p.childCount = 0 →
      (createDevice now2 st p).2 = none
      ∧ repoGet (createDevice now2 st p).1 p.guid = .ok { p with lastUpdated := now2 }
      ∧ ({ p with lastUpdated := now2 } : Device).childCount = 0)
    ∧ (∀ (st : Store) (now : Nat) (c parent : Device),
      validateDevice c = none → c.parentDeviceGuid ≠ "" →
      c.guid ≠ c.parentDeviceGuid →
      getKey st c.parentDeviceGuid = some (.dev parent) →
      parent.guid = c.parentDeviceGuid →
      (createDevice now st c).2 = none
      ∧ repoGet (createDevice now st c).1 c.parentDeviceGuid
          = .ok { parent with childCount := parent.childCount + 1, lastUpdated := now }) := by
  refine ⟨fun st now c hval hpne hne hgk => ?_, fun st now2 p hval hroot hcc => ?_,
    fun st now c parent hval hpne hne hgk hpg => ?_⟩
  · have h1 : getKey (repoSave now st c) c.parentDeviceGuid = none := by
      rw [repoSave, getKey_setKey_ne st c.guid _ c.parentDeviceGuid (Ne.symm hne), hgk]
    refine ⟨?_, h1⟩
    simp [createDevice, hval, if_neg hpne, repoGet, h1]
  · have hcd : createDevice now2 st p = (repoSave now2 st p, none) := by
      simp [createDevice, hval, hroot]
    rw [hcd]
    refine ⟨rfl, ?_, hcc⟩
    simp [repoGet, repoSave, getKey_setKey_self, unmarshalDevice]
  · have h1 : getKey (repoSave now st c) c.parentDeviceGuid = some (.dev parent) := by
      rw [repoSave, getKey_setKey_ne st c.guid _ c.parentDeviceGuid (Ne.symm hne), hgk]
    have h2 : getKey (repoSave now st c)
        ({ parent with childCount := parent.childCount + 1 } : Device).guid
        = some (.dev parent) := by
      simpa [hpg] using h1
    have hcd : createDevice now st c
        = (setKey (repoSave now st c) parent.guid
            (.dev { parent with childCount := parent.childCount + 1, lastUpdated := now }),
          none) := by
      simp [createDevice, hval, if_neg hpne, repoGet, h1, unmarshalDevice, repoUpdate, h2]
    rw [hcd]
    refine ⟨rfl, ?_⟩
    rw [repoGet, ← hpg, getKey_setKey_self]
    simp [unmarshalDevice]

/-- Concrete instance of `c5_parent_linkage`: a child referencing the
absent parent `pppp0000` is created without error and the parent stays
absent. -/
theorem c5_parent_linkage_witness :
    getKey (repoSave 1 []
        { iosDevice "17.0" with guid := "cccc0000", parentDeviceGuid := "pppp0000" })
      "pppp0000" = none :=
  (c5_parent_linkage.1 [] 1
    { iosDevice "17.0" with guid := "cccc0000", parentDeviceGuid := "pppp0000" }
    (by decide) (by decide) (by decide) rfl).2

theorem charsLt_false_trans {a b c : List Char} (h1 : charsLt a b = false)
    (h2 : charsLt b c = false) : charsLt a c = false := by
  rw [Bool.eq_false_iff] at h1 h2 ⊢
  intro hac
  cases hbc : charsLt b c with
  | true => exact h2 hbc
  | false =>
    cases hcb : charsLt c b with
    | true => exact h1 (charsLt_trans hac hcb)
    | false => exact h1 (by rwa [← charsLt_conn hbc hcb] at hac)

theorem androidOrder_iff (a b : VersionDistribution) :
    androidOrder a b ↔ charsLt a.version.data b.version.data = false := by
  simp [androidOrder, goLe, goLt]

instance : IsTotal VersionDistribution androidOrder :=
  ⟨fun a b => by
    rw [androidOrder_iff, androidOrder_iff]
    cases h : charsLt a.version.data b.version.data with
    | false => exact Or.inl rfl
    | true => exact Or.inr (charsLt_asymm h)⟩

instance : IsTrans VersionDistribution androidOrder :=
  ⟨fun a b c h1 h2 => by
    rw [androidOrder_iff] at *
    exact charsLt_false_trans h1 h2⟩

theorem iosOrder_iff (a b : VersionDistribution) :
    iosOrder a b ↔
      ((goMajor a.version = goMajor b.version
          ∧ charsLt a.version.data b.version.data = false)
        ∨ (goMajor a.version ≠ goMajor b.version
          ∧ charsLt (goMajor a.version).data (goMajor b.version).data = false)) := by
  simp only [iosOrder, iosLess, goLt]
  by_cases hm : goMajor b.version = goMajor a.version
  · rw [if_neg (not_not_intro hm)]
    constructor
    · intro h
      exact Or.inl ⟨hm.symm, h⟩
    · rintro (⟨_, h⟩ | ⟨hne, _⟩)
      · exact h
      · exact absurd hm.symm hne
  · rw [if_pos hm]
    constructor
    · intro h
      exact Or.inr ⟨fun he => hm he.symm, h⟩
    · rintro (⟨he, _⟩ | ⟨_, h⟩)
      · exact absurd he.symm hm
      · exact h

instance : IsTotal VersionDistribution iosOrder :=
  ⟨fun a b => by
    rw [iosOrder_iff, iosOrder_iff]
    by_cases hm : goMajor a.version = goMajor b.version
    · cases h : charsLt a.version.data b.version.data with
      | false => exact Or.inl (Or.inl ⟨hm, rfl⟩)
      | true => exact Or.inr (Or.inl ⟨hm.symm, charsLt_asymm h⟩)
    · cases h : charsLt (goMajor a.version).data (goMajor b.version).data with
      | false => exact Or.inl (Or.inr ⟨hm, rfl⟩)
      | true => exact Or.inr (Or.inr ⟨Ne.symm hm, charsLt_asymm h⟩)⟩

instance : IsTrans VersionDistribution iosOrder :=
  ⟨fun a b c h1 h2 => by
    rw [iosOrder_iff] at *
    rcases h1 with ⟨hm1, hv1⟩ | ⟨hm1, hv1⟩ <;> rcases h2 with ⟨hm2, hv2⟩ | ⟨hm2, hv2⟩
    · exact Or.inl ⟨hm1.trans hm2, charsLt_false_trans hv1 hv2⟩
    · refine Or.inr ⟨fun he => hm2 (hm1.symm.trans he), ?_⟩
      rwa [show (goMajor a.version).data = (goMajor b.version).data from hm1 ▸ rfl]
    · refine Or.inr ⟨fun he => hm1 (he.trans hm2.symm), ?_⟩
      rwa [show (goMajor b.version).data = (goMajor c.version).data from hm2 ▸ rfl] at hv1
    · have hba : charsLt (goMajor b.version).data (goMajor a.version).data = true := by
        cases hx : charsLt (goMajor b.version).data (goMajor a.version).data with
        | true => rfl
        | false => exact absurd (stringDataInj (charsLt_conn hv1 hx)) hm1
      have hcb : charsLt (goMajor c.version).data (goMajor b.version).data = true := by
        cases hx : charsLt (goMajor c.version).data (goMajor b.version).data with
        | true => rfl
        | false => exact absurd (stringDataInj (charsLt_conn hv2 hx)) hm2
      have hca := charsLt_trans hcb hba
      refine Or.inr ⟨fun he => ?_, charsLt_asymm hca⟩
      rw [he] at hca
      simp [charsLt_irrefl] at hca⟩

/-- C7 amended: the Android distribution is sorted by version string
lexically descending; the iOS distribution is sorted by the major version
component compared lexically as a string, descending, ties broken by the
full version string descending (not by the major parsed as an integer);
both lists are permutations of the buckets they present. -/
theorem c7_distribution_sorted (now : Nat) (patches versions : List (String × Nat)) :
    (analyzeAndroidVersionDistribution now patches).Pairwise
      (fun a b => charsLt a.version.data b.version.data = false)
    ∧ (analyzeAndroidVersionDistribution now patches).Perm
        (patches.map (androidEntry now))
    ∧ (analyzeIOSVersionDistribution versions).Pairwise
      (fun a b =>
        (goMajor a.version = goMajor b.version
          ∧ charsLt a.version.data b.version.data = false)
        ∨ (goMajor a.version ≠ goMajor b.version
          ∧ charsLt (goMajor a.version).data (goMajor b.version).data = false))
    ∧ (analyzeIOSVersionDistribution versions).Perm (versions.map iosEntry) := by
  refine ⟨?_, List.perm_insertionSort _ _, ?_, List.perm_insertionSort _ _⟩
  · exact (List.sorted_insertionSort androidOrder (patches.map (androidEntry now))).imp
      (fun h => (androidOrder_iff _ _).mp h)
  · exact (List.sorted_insertionSort iosOrder (versions.map iosEntry)).imp
      (fun h => (iosOrder_iff _ _).mp h)

/-- C7 counterexample: on the buckets `10.0` and `9.0` the code's iOS list
comes out `["9.0", "10.0"]` — majors compared as strings, `"9" > "10"` —
which is not descending by the major version parsed as an integer. -/
theorem c7_counterexample :
    (analyzeIOSVersionDistribution [("10.0", 1), ("9.0", 1)]).map
        (fun e => e.version) = ["9.0", "10.0"]
    ∧ ¬ claimSortedIOS (analyzeIOSVersionDistribution [("10.0", 1), ("9.0", 1)]) := by
  constructor
  · decide
  · simp only [claimSortedIOS]
    decide

/-- Loop invariant of the pagination proof: after processing `k` devices the
cursor is empty (at the start) or holds the oid of the `k`-th stored device
(1-based). -/
def cursorAt (devs : List Nat) (cursor : Option Nat) (k : Nat) : Prop :=
  (cursor = none ∧ k = 0)
  ∨ ∃ h : k - 1 < devs.length, 1 ≤ k ∧ cursor = some (devs.get ⟨k - 1, h⟩)

theorem get_index_congr (l : List Nat) (i j : Nat) (hi : i < l.length)
    (hj : j < l.length) (hij : i = j) : l.get ⟨i, hi⟩ = l.get ⟨j, hj⟩ := by
  subst hij
  rfl

theorem filter_gt_get : ∀ (devs : List Nat), devs.Pairwise (· < ·) →
    ∀ (j : Nat) (hj : j < devs.length),
      devs.filter (fun o => devs.get ⟨j, hj⟩ < o) = devs.drop (j + 1)
  | [], _, j, hj => absurd hj (by simp)
  | x :: tl, hp, 0, hj => by
    rcases List.pairwise_cons.mp hp with ⟨hhead, htail⟩
    simp only [List.get, List.filter_cons, decide_eq_true_eq, Nat.lt_irrefl,
      if_false, List.drop_succ_cons, List.drop_zero]
    exact List.filter_eq_self.mpr (fun y hy => by simp [hhead y hy])
  | x :: tl, hp, j + 1, hj => by
    rcases List.pairwise_cons.mp hp with ⟨hhead, htail⟩
    have hj2 : j < tl.length := by simpa using hj
    have hx : x < tl.get ⟨j, hj2⟩ := hhead _ (tl.get_mem _ _)
    simp only [List.get, List.filter_cons, decide_eq_true_eq,
      Nat.lt_asymm hx, if_false, List.drop_succ_cons]
    exact filter_gt_get tl htail j hj2

theorem pageAfter_eq (devs : List Nat) (hs : devs.Pairwise (· < ·)) (limit k : Nat)
    (cursor : Option Nat) (hc : cursorAt devs cursor k) :
    pageAfter devs cursor limit = (devs.drop k).take limit := by
  rcases hc with ⟨hce, hk0⟩ | ⟨h, hk1, hcs⟩
  · subst hce
    subst hk0
    simp [pageAfter]
  · subst hcs
    show (devs.filter (fun o => devs.get ⟨k - 1, h⟩ < o)).take limit = _
    rw [filter_gt_get devs hs (k - 1) h, show k - 1 + 1 = k from by omega]

theorem page_last (devs : List Nat) (limit k : Nat) (hk : k < devs.length)
    (hl : 1 ≤ limit) :
    ∃ h : k + (min limit (devs.length - k) - 1) < devs.length,
      ((devs.drop k).take limit).getD (((devs.drop k).take limit).length - 1) 0
        = devs.get ⟨k + (min limit (devs.length - k) - 1), h⟩ := by
  have hlen : ((devs.drop k).take limit).length = min limit (devs.length - k) := by
    simp [List.length_take, List.length_drop]
  have hbound : k + (min limit (devs.length - k) - 1) < devs.length := by omega
  refine ⟨hbound, ?_⟩
  rw [hlen, List.getD_eq_getElem _ 0 (by rw [hlen]; omega)]
  simp [List.getElem_take, List.getElem_drop, List.get_eq_getElem]

theorem syncLoop_run (devs : List Nat) (limit : Nat) (hs : devs.Pairwise (· < ·))
    (hl : 1 ≤ limit) :
    ∀ (n k : Nat) (cursor : Option Nat), k ≤ devs.length → cursorAt devs cursor k →
      n = (devs.length - k + limit - 1) / limit →
      ∃ reqs : List (Option Nat),
        syncLoop devs devs.length limit (n + 1) cursor k = some (reqs, devs.length)
        ∧ reqs.length = n + 1 ∧ reqs.head? = some cursor ∧ reqs.Chain' cursorLt
  | 0, k, cursor, hk, hc, hn => by
    have hkL : k = devs.length := by
      by_contra hne
      have h1 : 1 ≤ devs.length - k + limit - 1 + 1 - limit := by omega
      have h2 : 1 ≤ (devs.length - k + limit - 1) / limit :=
        (Nat.le_div_iff_mul_le (by omega)).mpr (by omega)
      omega
    subst hkL
    have hpage : pageAfter devs cursor limit = [] := by
      rw [pageAfter_eq devs hs limit devs.length cursor hc]
      simp
    refine ⟨[cursor], ?_, rfl, rfl, List.chain'_singleton cursor⟩
    simp [syncLoop, hpage]
  | n + 1, k, cursor, hk, hc, hn => by
    have hkL : k < devs.length := by
      by_contra hge
      have hke : k = devs.length := by omega
      subst hke
      rw [Nat.sub_self] at hn
      have h0 : (0 + limit - 1) / limit = 0 := Nat.div_eq_of_lt (by omega)
      omega
    have hpage : pageAfter devs cursor limit = (devs.drop k).take limit :=
      pageAfter_eq devs hs limit k cursor hc
    have hplen : (pageAfter devs cursor limit).length = min limit (devs.length - k) := by
      rw [hpage]
      simp [List.length_take, List.length_drop]
    obtain ⟨hbound, hlast⟩ := page_last devs limit k hkL hl
    have hcond : ¬((pageAfter devs cursor limit).length = 0 ∨ devs.length ≤ k) := by
      push_neg
      constructor
      · rw [hplen]
        omega
      · omega
    have hc2 : cursorAt devs
        (some (devs.get ⟨k + (min limit (devs.length - k) - 1), hbound⟩))
        (k + min limit (devs.length - k)) := by
      exact Or.inr ⟨by omega, by omega,
        congrArg some (get_index_congr devs (k + (min limit (devs.length - k) - 1))
          (k + min limit (devs.length - k) - 1) hbound (by omega) (by omega))⟩
    have hn2 : n = (devs.length - (k + min limit (devs.length - k)) + limit - 1) / limit := by
      rcases le_or_lt (devs.length - k) limit with hsm | hbg
      · have hone : (devs.length - k + limit - 1) / limit = 1 := by
          rw [show devs.length - k + limit - 1 = devs.length - k - 1 + limit from by omega,
            Nat.add_div_right _ (by omega), Nat.div_eq_of_lt (by omega)]
        have hrhs : (devs.length - (k + min limit (devs.length - k)) + limit - 1) / limit
            = 0 := by
          rw [show devs.length - (k + min limit (devs.length - k)) = 0 from by omega]
          exact Nat.div_eq_of_lt (by omega)
        omega
      · have hM : min limit (devs.length - k) = limit := by omega
        rw [show devs.length - k + limit - 1
            = devs.length - (k + limit) + limit - 1 + limit from by omega,
          Nat.add_div_right _ (by omega)] at hn
        rw [hM]
        omega
    obtain ⟨reqs2, hrun2, hlen2, hhead2, hchain2⟩ :=
      syncLoop_run devs limit hs hl n (k + min limit (devs.length - k))
        (some (devs.get ⟨k + (min limit (devs.length - k) - 1), hbound⟩))
        (by omega) hc2 hn2
    refine ⟨cursor :: reqs2, ?_, by simp [hlen2], rfl, ?_⟩
    · show syncLoop devs devs.length limit (n + 1 + 1) cursor k = _
      conv_lhs => rw [syncLoop]
      rw [if_neg hcond, hpage, hlast]
      rw [show ((devs.drop k).take limit).length = min limit (devs.length - k) from by
        simp [List.length_take, List.length_drop]]
      rw [hrun2]
    · rw [List.chain'_cons']
      refine ⟨?_, hchain2⟩
      intro b hb
      rw [hhead2] at hb
      have hbv : b = some (devs.get ⟨k + (min limit (devs.length - k) - 1), hbound⟩) := by
        have hb2 := hb
        simp at hb2
        exact hb2.symm
      subst hbv
      rcases hc with ⟨hce, hk0⟩ | ⟨h, hk1, hcs⟩
      · subst hce
        exact trivial
      · subst hcs
        show devs.get ⟨k - 1, h⟩ < devs.get ⟨k + (min limit (devs.length - k) - 1), hbound⟩
        exact List.pairwise_iff_get.mp hs ⟨k - 1, h⟩ ⟨_, hbound⟩ (by simp; omega)

instance : IsTrans (Option Nat) cursorLt :=
  ⟨fun a b c hab hbc => by
    cases a <;> cases b <;> cases c <;> simp [cursorLt] at * ; omega⟩

theorem cursorLt_ne {a b : Option Nat} (hab : cursorLt a b) : a ≠ b := by
  intro he
  subst he
  cases a <;> simp [cursorLt] at hab

/-- C3: against a server with `T` devices carrying strictly increasing oids
which declares total `T` at the 1-item probe, the synchronization loop
terminates with exactly `ceil(T / limit) + 1` device-list fetches, a final
processed count of `T` (the stop conditions in the loop body fire no
later), and cursors that are strictly increasing in fetch order, each used
at most once. -/
theorem c3_pagination (devs : List Nat) (limit : Nat)
    (hs : devs.Pairwise (· < ·)) (hl : 1 ≤ limit) :
    ∃ reqs : List (Option Nat),
      processDevicesSync devs limit ((devs.length + limit - 1) / limit + 1)
        = some (reqs, devs.length)
      ∧ reqs.length = (devs.length + limit - 1) / limit + 1
      ∧ reqs.Chain' cursorLt
      ∧ reqs.Nodup := by
  obtain ⟨reqs, h1, h2, h3, h4⟩ :=
    syncLoop_run devs limit hs hl ((devs.length + limit - 1) / limit) 0 none
      (by omega) (Or.inl ⟨rfl, rfl⟩) (by rw [Nat.sub_zero])
  refine ⟨reqs, h1, h2, h4, ?_⟩
  have hpw : reqs.Pairwise cursorLt := List.chain'_iff_pairwise.mp h4
  exact List.Pairwise.imp (fun hab => cursorLt_ne hab) hpw

/-- Concrete instance of `c3_pagination`: 4 devices at page size 2 finish in
3 loop fetches. -/
theorem c3_pagination_witness :
    ∃ reqs : List (Option Nat),
      processDevicesSync [3, 5, 7, 9] 2 (([3, 5, 7, 9].length + 2 - 1) / 2 + 1)
        = some (reqs, [3, 5, 7, 9].length)
      ∧ reqs.length = ([3, 5, 7, 9].length + 2 - 1) / 2 + 1
      ∧ reqs.Chain' cursorLt
      ∧ reqs.Nodup :=
  c3_pagination [3, 5, 7, 9] 2 (by simp) (by omega)
